import Mathlib

/-!
# MediaFlow ingestion pipeline

A shallow embedding of `internal/ingestion/service.go` and of the metadata loop of
`internal/ingestion/http.go`, together with the library pieces the pipeline is built from
(`crypto/sha256`, `encoding/hex`, `io.TeeReader`, `bufio.Reader.Read`), and the properties of
the upload pipeline proved about that embedding.

Conventions.
* `[]byte` is `List Byte`; `int64` is `Int` (no arithmetic is done on sizes, so no wrap-around).
* A Go `map[string]string` is the list of its entries in the order a `range` loop yields them;
  its keys are pairwise distinct (`GoMap.WF`). Go randomises that order, so a statement that
  holds for every such list holds for every iteration order.
* `time.Now()` and `uuid.NewString()` are read from an environment `Env`, indexed by the number
  of earlier calls made by the same invocation.
* The two collaborators are arbitrary: `Store.put` is any terminating program of `Read` calls on
  the reader it is handed, `Producer.publish` any function of its arguments.
* Every call made on a collaborator is appended to a trace, in program order.
-/

namespace MediaFlow

abbrev Byte := UInt8

/-! ## crypto/sha256 and encoding/hex -/

namespace SHA256

/-- Arithmetic on `uint32` is arithmetic on `Nat` reduced modulo `2 ^ 32`. -/
def mask32 (x : Nat) : Nat := x % 2 ^ 32

/-- The function `bits.RotateLeft32(x, -n)` on a 32-bit word. -/
def rotr (x n : Nat) : Nat := mask32 ((x >>> n) ||| (x <<< (32 - n)))

/-- The choice function, with the complement taken within 32 bits. -/
def ch (x y z : Nat) : Nat := (x &&& y) ^^^ ((x ^^^ (2 ^ 32 - 1)) &&& z)
/-- The majority function. -/
def maj (x y z : Nat) : Nat := (x &&& y) ^^^ (x &&& z) ^^^ (y &&& z)
def bsig0 (x : Nat) : Nat := rotr x 2 ^^^ rotr x 13 ^^^ rotr x 22
def bsig1 (x : Nat) : Nat := rotr x 6 ^^^ rotr x 11 ^^^ rotr x 25
def ssig0 (x : Nat) : Nat := rotr x 7 ^^^ rotr x 18 ^^^ (x >>> 3)
def ssig1 (x : Nat) : Nat := rotr x 17 ^^^ rotr x 19 ^^^ (x >>> 10)

/-- The round constants `_K` of sha256block.go, eight per row. -/
def K : List Nat :=
  [0x428a2f98, 0x71374491, 0xb5c0fbcf, 0xe9b5dba5, 0x3956c25b, 0x59f111f1, 0x923f82a4, 0xab1c5ed5] ++
  [0xd807aa98, 0x12835b01, 0x243185be, 0x550c7dc3, 0x72be5d74, 0x80deb1fe, 0x9bdc06a7, 0xc19bf174] ++
  [0xe49b69c1, 0xefbe4786, 0x0fc19dc6, 0x240ca1cc, 0x2de92c6f, 0x4a7484aa, 0x5cb0a9dc, 0x76f988da] ++
  [0x983e5152, 0xa831c66d, 0xb00327c8, 0xbf597fc7, 0xc6e00bf3, 0xd5a79147, 0x06ca6351, 0x14292967] ++
  [0x27b70a85, 0x2e1b2138, 0x4d2c6dfc, 0x53380d13, 0x650a7354, 0x766a0abb, 0x81c2c92e, 0x92722c85] ++
  [0xa2bfe8a1, 0xa81a664b, 0xc24b8b70, 0xc76c51a3, 0xd192e819, 0xd6990624, 0xf40e3585, 0x106aa070] ++
  [0x19a4c116, 0x1e376c08, 0x2748774c, 0x34b0bcb5, 0x391c0cb3, 0x4ed8aa4a, 0x5b9cca4f, 0x682e6ff3] ++
  [0x748f82ee, 0x78a5636f, 0x84c87814, 0x8cc70208, 0x90befffa, 0xa4506ceb, 0xbef9a3f7, 0xc67178f2]

/-- The eight chaining words `h[0..7]` of a digest. -/
structure State where
  a : Nat
  b : Nat
  c : Nat
  d : Nat
  e : Nat
  f : Nat
  g : Nat
  h : Nat
deriving DecidableEq, Repr

/-- The initial chaining value. -/
def init : State :=
  ⟨0x6a09e667, 0xbb67ae85, 0x3c6ef372, 0xa54ff53a, 0x510e527f, 0x9b05688c, 0x1f83d9ab, 0x5be0cd19⟩

/-- Big-endian 32-bit word from four bytes. -/
def word (b0 b1 b2 b3 : Byte) : Nat :=
  b0.toNat * 2 ^ 24 + b1.toNat * 2 ^ 16 + b2.toNat * 2 ^ 8 + b3.toNat

/-- The big-endian words of a block. -/
def words : List Byte → List Nat
  | b0 :: b1 :: b2 :: b3 :: rest => word b0 b1 b2 b3 :: words rest
  | _ => []

/-- Extends the message schedule by `n` words; `w` holds the schedule so far, newest first. -/
def extend : Nat → List Nat → List Nat
  | 0, w => w
  | n + 1, w =>
    let w2 := w.getD 1 0
    let w7 := w.getD 6 0
    let w15 := w.getD 14 0
    let w16 := w.getD 15 0
    extend n (mask32 (ssig1 w2 + w7 + ssig0 w15 + w16) :: w)

/-- The 64 words of the message schedule of one 64-byte block. -/
def schedule (block : List Byte) : List Nat :=
  (extend 48 (words block).reverse).reverse

/-- One round of the compression function, on the pair of a round constant and a schedule
word. -/
def round (s : State) (kw : Nat × Nat) : State :=
  let t1 := s.h + bsig1 s.e + ch s.e s.f s.g + kw.1 + kw.2
  let t2 := bsig0 s.a + maj s.a s.b s.c
  ⟨mask32 (t1 + t2), s.a, s.b, s.c, mask32 (s.d + t1), s.e, s.f, s.g⟩

/-- The compression of one block into the chaining value. -/
def compress (s : State) (block : List Byte) : State :=
  let r := (K.zip (schedule block)).foldl round s
  ⟨mask32 (s.a + r.a), mask32 (s.b + r.b), mask32 (s.c + r.c), mask32 (s.d + r.d),
   mask32 (s.e + r.e), mask32 (s.f + r.f), mask32 (s.g + r.g), mask32 (s.h + r.h)⟩

/-- Big-endian bytes of the low `8 * n` bits of `x`. -/
def beBytes : Nat → Nat → List Byte
  | 0, _ => []
  | n + 1, x => UInt8.ofNat (x >>> (8 * n)) :: beBytes n x

/-- The padding written by `checkSum`: the byte `0x80`, zeros up to 56 modulo 64, and the
length in bits as a 64-bit big-endian integer. -/
def pad (msg : List Byte) : List Byte :=
  msg ++ [0x80] ++ List.replicate ((119 - msg.length % 64) % 64) 0 ++ beBytes 8 (8 * msg.length)

/-- The compression of the first `n` 64-byte blocks. -/
def blocks : Nat → State → List Byte → State
  | 0, s, _ => s
  | n + 1, s, bs => blocks n (compress s (bs.take 64)) (bs.drop 64)

/-- The digest `sha256.Sum256(msg)`; a `hash.Hash` that was written `msg` in any number of
pieces returns it from `Sum(nil)`. -/
def sum256 (msg : List Byte) : List Byte :=
  let p := pad msg
  let s := blocks (p.length / 64) init p
  beBytes 4 s.a ++ beBytes 4 s.b ++ beBytes 4 s.c ++ beBytes 4 s.d ++
    beBytes 4 s.e ++ beBytes 4 s.f ++ beBytes 4 s.g ++ beBytes 4 s.h

end SHA256

/-- The table `hextable` of encoding/hex. -/
def hextable : List Char := "0123456789abcdef".toList

/-- The function `hex.EncodeToString`. -/
def encodeToString (src : List Byte) : String :=
  String.mk (src.flatMap fun v => [hextable.getD (v.toNat >>> 4) '0', hextable.getD (v.toNat &&& 0x0f) '0'])

/-! ## Errors, maps, time -/

deriving instance DecidableEq for Except

/-- A Go error value: its message and, when built with the `%w` verb, the error it wraps. -/
inductive GoError where
  | leaf (msg : String)
  | wrap (msg : String) (inner : GoError)
deriving DecidableEq, Repr

namespace GoError

/-- The method `Error()`. -/
def message : GoError → String
  | leaf m => m
  | wrap m _ => m

/-- The function `errors.Unwrap`. -/
def unwrap : GoError → Option GoError
  | leaf _ => none
  | wrap _ e => some e

end GoError

/-- The call `fmt.Errorf(tag + ": %w", err)`. -/
def errorfWrap (tag : String) (err : GoError) : GoError :=
  .wrap (tag ++ ": " ++ err.message) err

/-- A `map[string]string`, as the list of its entries. -/
abbrev GoMap := List (String × String)

namespace GoMap

/-- Keys of a Go map are pairwise distinct. -/
def WF (m : GoMap) : Prop := (m.map Prod.fst).Nodup

instance (m : GoMap) : Decidable m.WF := by unfold WF; infer_instance

/-- The lookup `m[k]` (with the comma-ok result as an `Option`). -/
def get (m : GoMap) (k : String) : Option String := List.lookup k m

/-- The assignment `m[k] = v`. -/
def set (m : GoMap) (k v : String) : GoMap := (k, v) :: m.filter fun e => e.1 != k

end GoMap

/-- A `time.Time` in UTC, broken down into the civil date and the time within the day. -/
structure Time where
  year : Int
  month : Nat
  day : Nat
  nanosOfDay : Nat
deriving DecidableEq, Repr

/-- The helper `appendInt` of package `time`: sign, then the decimal digits zero-padded to `width`. -/
def appendInt (x : Int) (width : Nat) : String :=
  let digits := Nat.toDigits 10 x.natAbs
  String.mk ((if x < 0 then ['-'] else []) ++ List.replicate (width - digits.length) '0' ++ digits)

/-- The call `t.Format("2006/01/02")`. -/
def formatDate (t : Time) : String :=
  appendInt t.year 4 ++ "/" ++ appendInt t.month 2 ++ "/" ++ appendInt t.day 2

/-- The call `fmt.Sprintf("%s/%s", a, b)`. -/
def sprintfPath (a b : String) : String := a ++ "/" ++ b

/-! ## Readers: the source, io.TeeReader, bufio.Reader -/

/-- Result of one `Read(p)`: the bytes stored in `p`, the error, and the reader afterwards. -/
structure ReadResult (σ : Type) where
  data : List Byte
  err : Option GoError
  next : σ

/-- An `io.Reader` with internal state `σ`: what `Read(p)` does when `len(p) = n`. -/
structure Source (σ : Type) where
  read : σ → Nat → ReadResult σ

/-- One `Read` on the source; at most `len(p)` bytes fit into `p`. -/
def Source.readInto {σ : Type} (src : Source σ) (s : σ) (n : Nat) : ReadResult σ :=
  let r := src.read s n
  { r with data := r.data.take n }

/-- The `io.TeeReader(reader, hasher)`: the source, the bytes written to the hasher so far
(a `hash.Hash` is determined by the concatenation of its writes), and the lengths of the `Read`
calls issued on the source. -/
structure TeeState (σ : Type) where
  src : σ
  hashed : List Byte
  reads : List Nat

/-- The method `teeReader.Read`: read from the source, write what was read to the hasher. -/
def teeRead {σ : Type} (src : Source σ) (t : TeeState σ) (n : Nat) :
    List Byte × Option GoError × TeeState σ :=
  let r := src.readInto t.src n
  (r.data, r.err, { src := r.next, hashed := t.hashed ++ r.data, reads := t.reads ++ [n] })

/-- The buffer size handed to `bufio.NewReaderSize`. -/
def bufSize : Nat := 64 * 1024

/-- A `bufio.Reader`: the unread part `buf[r:w]` of its buffer, its sticky error, and the
reader underneath. -/
structure BufState (σ : Type) where
  pending : List Byte
  err : Option GoError
  tee : TeeState σ

/-- The method `bufio.Reader.Read(p)` with `len(p) = n`. -/
def bufioRead {σ : Type} (src : Source σ) (b : BufState σ) (n : Nat) :
    (List Byte × Option GoError) × BufState σ :=
  if n = 0 then
    if b.pending.length > 0 then (([], none), b)
    else (([], b.err), { b with err := none })
  else if b.pending.length = 0 then
    if b.err.isSome then (([], b.err), { b with err := none })
    else if n ≥ bufSize then
      -- large read, empty buffer: read directly into p
      let (d, e, t) := teeRead src b.tee n
      ((d, e), { pending := [], err := none, tee := t })
    else
      -- one read into the buffer
      let (d, e, t) := teeRead src b.tee bufSize
      if d.length = 0 then (([], e), { pending := [], err := none, tee := t })
      else ((d.take n, none), { pending := d.drop n, err := e, tee := t })
  else
    ((b.pending.take n, none), { b with pending := b.pending.drop n })

/-! ## The collaborators -/

/-- A terminating client of an `io.Reader`: it either returns, or issues `Read(p)` with
`len(p) = n` and continues according to the bytes and the error that call returned. -/
inductive PutProg where
  | ret (err : Option GoError)
  | read (n : Nat) (k : List Byte → Option GoError → PutProg)

/-- Runs a reading program against the buffered reader; `acc` collects the bytes delivered. -/
def runPut {σ : Type} (src : Source σ) :
    PutProg → BufState σ → List Byte → Option GoError × List Byte × BufState σ
  | .ret e, b, acc => (e, acc, b)
  | .read n k, b, acc =>
    let r := bufioRead src b n
    runPut src (k r.1.1 r.1.2) r.2 (acc ++ r.1.1)

/-- The interface `objectstore.Client`: `Put(ctx, key, reader, size, metadata)` and `Close()`. -/
structure Store where
  Put : String → Int → GoMap → PutProg
  Close : Option GoError

/-- The type `kafka.Producer`: `Publish(ctx, key, value, headers)` and `Close(ctx)`. -/
structure Producer where
  Publish : List Byte → List Byte → GoMap → Option GoError
  Close : Option GoError

/-- A call made on a collaborator, with its arguments and what it returned; for `Put` also the
bytes it was delivered by the reader. -/
inductive Call where
  | put (key : String) (size : Int) (metadata : GoMap) (consumed : List Byte)
      (err : Option GoError)
  | publish (key payload : List Byte) (headers : GoMap) (err : Option GoError)
  | producerClose (err : Option GoError)
  | storeClose (err : Option GoError)
deriving DecidableEq

/-- A call of `Put`. -/
def Call.isPut : Call → Bool
  | .put .. => true
  | _ => false

/-- A `Put` that returned no error. -/
def Call.isPutOk : Call → Bool
  | .put _ _ _ _ none => true
  | _ => false

/-- A `Put` that returned an error. -/
def Call.isPutErr : Call → Bool
  | .put _ _ _ _ (some _) => true
  | _ => false

/-- A call of `Publish`. -/
def Call.isPublish : Call → Bool
  | .publish .. => true
  | _ => false

/-- Calls on the storage writer (`Put` or `Close`). -/
def Call.onStore : Call → Bool
  | .put .. => true
  | .storeClose _ => true
  | _ => false

/-- The metadata argument of the first `Put` of a trace. -/
def putMetadata (t : List Call) : Option GoMap :=
  t.findSome? fun c => match c with
    | .put _ _ m _ _ => some m
    | _ => none

/-- The key argument of the first `Put` of a trace. -/
def putKey (t : List Call) : Option String :=
  t.findSome? fun c => match c with
    | .put k _ _ _ _ => some k
    | _ => none

/-- The bytes the reader delivered to the first `Put` of a trace. -/
def putConsumed (t : List Call) : Option (List Byte) :=
  t.findSome? fun c => match c with
    | .put _ _ _ consumed _ => some consumed
    | _ => none

/-! ## internal/ingestion: events.go and service.go -/

/-- The type `UploadOptions`. -/
structure UploadOptions where
  Filename : String
  ContentType : String
  Metadata : GoMap

/-- The type `UploadResult`. -/
structure UploadResult where
  MediaID : String
  ObjectKey : String
  Checksum : String
  Size : Int
  UploadedAt : Time
deriving DecidableEq, Repr

/-- The type `IngestionEvent` of events.go. -/
structure IngestionEvent where
  ID : String
  ObjectKey : String
  Checksum : String
  SizeBytes : Int
  ContentType : String
  Metadata : GoMap
  CreatedAt : Time
deriving DecidableEq, Repr

/-- The conversion `[]byte(s)`. -/
def bytesOfString (s : String) : List Byte := s.data.flatMap String.utf8EncodeChar

/-- The call `json.Marshal(event)`. Of the field types of `IngestionEvent` only `time.Time` has
a marshaller that can fail: `Time.MarshalJSON` rejects a year outside `[0,9999]`. The bytes of
an accepted event are those of the encoder `enc`. -/
def jsonMarshal (enc : IngestionEvent → List Byte) (e : IngestionEvent) :
    Except GoError (List Byte) :=
  if 0 ≤ e.CreatedAt.year ∧ e.CreatedAt.year ≤ 9999 then .ok (enc e)
  else .error (.wrap "json: error calling MarshalJSON for type time.Time: Time.MarshalJSON: year outside of range [0,9999]"
    (.leaf "Time.MarshalJSON: year outside of range [0,9999]"))

/-- Lines 72-78 of service.go: the map literal, then the loop over `opts.Metadata`. -/
def buildMetadata (opts : UploadOptions) : GoMap :=
  let metadata : GoMap :=
    [("original_filename", opts.Filename), ("content_type", opts.ContentType)]
  opts.Metadata.foldl (fun m kv => m.set kv.1 kv.2) metadata

/-- What one call of `ProcessUpload` did: the value returned, the calls made on the two
collaborators, the input stream afterwards, the `Read` calls issued on it, the bytes fed to the
hasher, and the bytes left unread in the buffer of the `bufio.Reader`. -/
structure Outcome (σ : Type) where
  result : Except GoError UploadResult
  trace : List Call
  source : σ
  reads : List Nat
  hashed : List Byte
  pending : List Byte

/-- The surroundings of one invocation: the `n`-th `time.Now().UTC()` and the `n`-th
`uuid.NewString()` it evaluates, and the encoder behind `json.Marshal`. -/
structure Env where
  now : Nat → Time
  newUUID : Nat → String
  jsonEncode : IngestionEvent → List Byte

/-- Lines 67-70 of service.go: the key with a generated token, replaced by the key with the
caller's file name when there is one. -/
def objectKeyOf (env : Env) (opts : UploadOptions) : String :=
  let objectKey := sprintfPath (formatDate (env.now 0)) (env.newUUID 0)
  if opts.Filename != "" then sprintfPath (formatDate (env.now 1)) opts.Filename
  else objectKey

/-- The number of clock readings lines 67-70 take. -/
def clockAfterKey (opts : UploadOptions) : Nat :=
  if opts.Filename != "" then 2 else 1

/-- The event built on lines 84-94 from the bytes the hasher has absorbed. -/
def eventOf (env : Env) (size : Int) (opts : UploadOptions) (hashed : List Byte) :
    IngestionEvent :=
  { ID := env.newUUID 1, ObjectKey := objectKeyOf env opts,
    Checksum := encodeToString (SHA256.sum256 hashed), SizeBytes := size,
    ContentType := opts.ContentType, Metadata := buildMetadata opts,
    CreatedAt := env.now (clockAfterKey opts) }

/-- Lines 84-116 of service.go, run once `Put` has returned no error: the value returned and
the calls made on the producer. -/
def announce (env : Env) (producer : Producer) (size : Int) (opts : UploadOptions)
    (hashed : List Byte) : Except GoError UploadResult × List Call :=
  let event := eventOf env size opts hashed
  let mediaID := event.ID
  match jsonMarshal env.jsonEncode event with
  | .error err => (.error (errorfWrap "marshal ingestion event" err), [])
  | .ok payload =>
    let headers : GoMap := [("media_id", mediaID), ("event_type", "ingestion.created")]
    let pubErr := producer.Publish (bytesOfString mediaID) payload headers
    let pubCall := Call.publish (bytesOfString mediaID) payload headers pubErr
    match pubErr with
    | some err => (.error (errorfWrap "publish ingestion event" err), [pubCall])
    | none =>
      (.ok { MediaID := mediaID, ObjectKey := event.ObjectKey, Checksum := event.Checksum,
             Size := size, UploadedAt := env.now (clockAfterKey opts + 1) },
       [pubCall])

/-- Lines 63-65 and 80 of service.go: the hasher, the tee into it and the 64 KiB buffered
reader are created, and `Put` runs against that reader. The value is the error `Put` returned,
the bytes it was delivered, and the reader afterwards. -/
def putRun {σ : Type} (env : Env) (store : Store) (src : Source σ) (reader : σ) (size : Int)
    (opts : UploadOptions) : Option GoError × List Byte × BufState σ :=
  let tee : TeeState σ := { src := reader, hashed := [], reads := [] }
  let buffered : BufState σ := { pending := [], err := none, tee := tee }
  runPut src (store.Put (objectKeyOf env opts) size (buildMetadata opts)) buffered []

/-- The type `Service`; the logger takes no part in what follows. -/
structure Service where
  store : Store
  producer : Producer

/-- The method `Service.ProcessUpload`. -/
def Service.ProcessUpload {σ : Type} (s : Service) (env : Env)
    (src : Source σ) (reader : σ) (size : Int) (opts : UploadOptions) : Outcome σ :=
  if size ≤ 0 then
    { result := .error (.leaf ("invalid file size: " ++ toString size)),
      trace := [], source := reader, reads := [], hashed := [], pending := [] }
  else
    let r := putRun env s.store src reader size opts
    let putCall := Call.put (objectKeyOf env opts) size (buildMetadata opts) r.2.1 r.1
    let after := r.2.2
    match r.1 with
    | some err =>
      { result := .error (errorfWrap "put object" err), trace := [putCall],
        source := after.tee.src, reads := after.tee.reads, hashed := after.tee.hashed,
        pending := after.pending }
    | none =>
      let a := announce env s.producer size opts after.tee.hashed
      { result := a.1, trace := putCall :: a.2,
        source := after.tee.src, reads := after.tee.reads, hashed := after.tee.hashed,
        pending := after.pending }

/-- The method `Service.Close`: the value returned and the calls made. -/
def Service.Close (s : Service) : Option GoError × List Call :=
  match s.producer.Close with
  | some err => (some err, [.producerClose (some err)])
  | none => (s.store.Close, [.producerClose none, .storeClose s.store.Close])

/-! ## internal/ingestion/http.go: the metadata loop of handleUpload -/

/-- The function `strings.ToLower`: a string of ASCII bytes only has its letters `A`-`Z`
lowered byte by byte; any other string is mapped rune by rune through `unicode.ToLower`, whose
case tables are the parameter `unicodeToLower`. -/
def stringsToLower (unicodeToLower : Char → Char) (s : String) : String :=
  if s.data.all (fun c => c.toNat < 128) then String.mk (s.data.map Char.toLower)
  else String.mk (s.data.map unicodeToLower)

/-- The field `MultipartForm.Value`, a `map[string][]string`, as the list of its entries in the
order the `range` loop yields them. -/
abbrev FormValues := List (String × List String)

/-- Lines 87-96 of http.go. -/
def handleUploadMetadata (unicodeToLower : Char → Char) (form : FormValues) : GoMap :=
  form.foldl (fun metadata kv =>
    if kv.1 == "file" then metadata
    else if kv.2.length == 0 then metadata
    else metadata.set (stringsToLower unicodeToLower kv.1)
      (kv.2.getD (kv.2.length - 1) "")) []

/-! ## Concrete collaborators and inputs -/

/-- The error `io.EOF`. -/
def eofErr : GoError := .leaf "EOF"

/-- A `bytes.Reader`-like stream over the bytes still to be read. -/
def bytesSource : Source (List Byte) where
  read s n :=
    { data := s.take n, err := if s.isEmpty then some eofErr else none, next := s.drop n }

/-- A clock standing at 5 March 2024, generated tokens `3f2b` then `9c1d`, and an encoder that
emits the event identity. -/
def demoEnv : Env where
  now n := ⟨2024, 3, 5, n⟩
  newUUID n := if n = 0 then "3f2b" else "9c1d"
  jsonEncode e := bytesOfString e.ID

/-- The same surroundings with the clock standing in the year 10000. -/
def lateEnv : Env := { demoEnv with now := fun n => ⟨10000, 1, 1, n⟩ }

/-- A `Put` that issues a single `Read` of `n` bytes and reports success. -/
def readOnce (n : Nat) : PutProg := .read n fun _ _ => .ret none

/-- A store whose `Put` reads `n` bytes once and succeeds. -/
def demoStore (n : Nat) : Store where
  Put _ _ _ := readOnce n
  Close := none

/-- A producer that accepts every message. -/
def demoProducer : Producer where
  Publish _ _ _ := none
  Close := none

/-- A producer whose `Publish` and `Close` fail. -/
def failingProducer : Producer where
  Publish _ _ _ := some (.leaf "broker unavailable")
  Close := some (.leaf "flush timed out")

/-- The options of the spec's scenario. -/
def demoOpts : UploadOptions := ⟨"clip.mp4", "video/mp4", [("owner", "abc")]⟩

/-- Options whose caller metadata carries the two reserved keys. -/
def shadowOpts : UploadOptions :=
  ⟨"clip.mp4", "video/mp4", [("content_type", "text/plain"), ("original_filename", "x.bin")]⟩

/-- Options with a file name that contains path separators. -/
def nestedOpts : UploadOptions := ⟨"raw/../cam 1/clip.mp4", "video/mp4", []⟩

/-- Options without a file name. -/
def namelessOpts : UploadOptions := ⟨"", "video/mp4", []⟩

/-- A form in which two field names differ only in letter case, in one iteration order. -/
def mixedCaseForm : FormValues := [("Owner", ["a"]), ("owner", ["b"])]

/-- The same form in the other iteration order. -/
def mixedCaseFormSwapped : FormValues := [("owner", ["b"]), ("Owner", ["a"])]

/-- A store that checks what `Put` is handed: it reads `n` bytes once and succeeds when the
key and the size are the given ones and the metadata map has exactly the given entries, and
fails without reading otherwise. -/
def expectingStore (key : String) (size : Int) (metadata : GoMap) (n : Nat) : Store where
  Put k s m :=
    if k = key ∧ s = size ∧ m.length = metadata.length ∧
        (metadata.all fun e => m.get e.1 == some e.2) then readOnce n
    else .ret (some (.leaf "unexpected arguments"))
  Close := none

/-- A producer that checks what `Publish` is handed: it accepts the message when the key and
the payload are the given ones and the headers are exactly the given entries, and rejects it
otherwise. -/
def expectingProducer (key payload : List Byte) (headers : GoMap) : Producer where
  Publish k p h :=
    if k = key ∧ p = payload ∧ h.length = headers.length ∧
        (headers.all fun e => h.get e.1 == some e.2) then none
    else some (.leaf "unexpected message")
  Close := none

/-- Surroundings like `demoEnv` whose encoder emits the identity, the object key, the content
type and the checksum of the event, separated by zero bytes. -/
def recordEnv : Env :=
  { demoEnv with
    jsonEncode := fun e =>
      bytesOfString e.ID ++ [0] ++ bytesOfString e.ObjectKey ++ [0] ++
        bytesOfString e.ContentType ++ [0] ++ bytesOfString e.Checksum }

/-- The payload `recordEnv` yields for the event of the 3-byte upload `abc` with the options
`demoOpts`, written out with the UTF-8 encoder of the standard library. -/
def recordPayload : List Byte :=
  "9c1d".toUTF8.data.toList ++ [0] ++ "2024/03/05/clip.mp4".toUTF8.data.toList ++ [0] ++
    "video/mp4".toUTF8.data.toList ++ [0] ++
    "ba7816bf8f01cfea414140de5dae2223b00361a396177a9cb410ff61f20015ad".toUTF8.data.toList

/-- A producer that accepts only the message of that upload: the key is the four ASCII bytes
of the identity `9c1d`. -/
def recordProducer : Producer :=
  expectingProducer [57, 99, 49, 100] recordPayload
    [("media_id", "9c1d"), ("event_type", "ingestion.created")]

/-- A producer that accepts only a message keyed by the token `3f2b` of the object key. -/
def wrongKeyProducer : Producer :=
  expectingProducer [51, 102, 50, 98] recordPayload
    [("media_id", "9c1d"), ("event_type", "ingestion.created")]

/-! ## Test vectors -/

set_option maxRecDepth 20000 in
/-- The digests of the empty message, of `abc`, and of the 56-byte two-block message of
FIPS 180. -/
theorem SHA256.sum256_test_vectors :
    encodeToString (SHA256.sum256 [])
        = "e3b0c44298fc1c149afbf4c8996fb92427ae41e4649b934ca495991b7852b855" ∧
      encodeToString (SHA256.sum256 (bytesOfString "abc"))
        = "ba7816bf8f01cfea414140de5dae2223b00361a396177a9cb410ff61f20015ad" ∧
      encodeToString (SHA256.sum256
          (bytesOfString "abcdbcdecdefdefgefghfghighijhijkijkljklmklmnlmnomnopnopq"))
        = "248d6a61d20638b8e5c026930c3e6039a33ce45964ff2167f6ecedd419db06c1" := by
  decide

/-- The layout `2006/01/02` on a date in 2024 and on one in the year 10000. -/
theorem formatDate_examples :
    formatDate ⟨2024, 3, 5, 0⟩ = "2024/03/05" ∧ formatDate ⟨10000, 12, 25, 0⟩ = "10000/12/25" := by
  decide

/-! ## Structure of a run -/

/-- The three ways lines 84-116 can end. -/
theorem announce_cases (env : Env) (producer : Producer) (size : Int) (opts : UploadOptions)
    (hashed : List Byte) :
    (¬ (0 ≤ (env.now (clockAfterKey opts)).year ∧ (env.now (clockAfterKey opts)).year ≤ 9999) ∧
        (∃ e, (announce env producer size opts hashed).1 = .error e) ∧
        (announce env producer size opts hashed).2 = []) ∨
      ((0 ≤ (env.now (clockAfterKey opts)).year ∧ (env.now (clockAfterKey opts)).year ≤ 9999) ∧
        ∃ perr, (announce env producer size opts hashed).2 =
            [Call.publish (bytesOfString (env.newUUID 1))
              (env.jsonEncode (eventOf env size opts hashed))
              [("media_id", env.newUUID 1), ("event_type", "ingestion.created")] perr] ∧
          perr = producer.Publish (bytesOfString (env.newUUID 1))
              (env.jsonEncode (eventOf env size opts hashed))
              [("media_id", env.newUUID 1), ("event_type", "ingestion.created")] ∧
          (announce env producer size opts hashed).1 =
            match perr with
            | some err => .error (errorfWrap "publish ingestion event" err)
            | none => .ok
                { MediaID := env.newUUID 1, ObjectKey := objectKeyOf env opts,
                  Checksum := encodeToString (SHA256.sum256 hashed), Size := size,
                  UploadedAt := env.now (clockAfterKey opts + 1) }) := by
  by_cases hy : 0 ≤ (env.now (clockAfterKey opts)).year ∧ (env.now (clockAfterKey opts)).year ≤ 9999
  · right
    refine ⟨hy, ?_⟩
    simp only [announce, jsonMarshal, eventOf, hy, and_self, if_true]
    cases hp : producer.Publish (bytesOfString (env.newUUID 1))
        (env.jsonEncode (eventOf env size opts hashed))
        [("media_id", env.newUUID 1), ("event_type", "ingestion.created")] with
    | none => simp [eventOf] at hp ⊢; simp [hp]
    | some e => simp [eventOf] at hp ⊢; simp [hp]
  · left
    refine ⟨hy, ?_⟩
    simp only [announce, jsonMarshal, eventOf, hy, if_false]
    simp

/-- A run with a positive size whose `Put` fails. -/
theorem processUpload_put_err {σ : Type} (env : Env) (store : Store) (producer : Producer)
    (src : Source σ) (reader : σ) (size : Int) (opts : UploadOptions) (err : GoError)
    (hsize : 0 < size) (hput : (putRun env store src reader size opts).1 = some err) :
    (Service.ProcessUpload ⟨store, producer⟩ env src reader size opts).result
        = .error (errorfWrap "put object" err) ∧
      (Service.ProcessUpload ⟨store, producer⟩ env src reader size opts).trace
        = [Call.put (objectKeyOf env opts) size (buildMetadata opts)
            (putRun env store src reader size opts).2.1 (some err)] := by
  simp [Service.ProcessUpload, not_le.mpr hsize, hput]

/-- A run with a positive size whose `Put` succeeds. -/
theorem processUpload_put_ok {σ : Type} (env : Env) (store : Store) (producer : Producer)
    (src : Source σ) (reader : σ) (size : Int) (opts : UploadOptions)
    (hsize : 0 < size) (hput : (putRun env store src reader size opts).1 = none) :
    (Service.ProcessUpload ⟨store, producer⟩ env src reader size opts).result
        = (announce env producer size opts
            (putRun env store src reader size opts).2.2.tee.hashed).1 ∧
      (Service.ProcessUpload ⟨store, producer⟩ env src reader size opts).trace
        = Call.put (objectKeyOf env opts) size (buildMetadata opts)
            (putRun env store src reader size opts).2.1 none ::
          (announce env producer size opts
            (putRun env store src reader size opts).2.2.tee.hashed).2 ∧
      (Service.ProcessUpload ⟨store, producer⟩ env src reader size opts).hashed
        = (putRun env store src reader size opts).2.2.tee.hashed ∧
      (Service.ProcessUpload ⟨store, producer⟩ env src reader size opts).pending
        = (putRun env store src reader size opts).2.2.pending := by
  simp [Service.ProcessUpload, not_le.mpr hsize, hput]

/-- A run with a non-positive size. -/
theorem processUpload_rejected {σ : Type} (env : Env) (store : Store) (producer : Producer)
    (src : Source σ) (reader : σ) (size : Int) (opts : UploadOptions) (hsize : size ≤ 0) :
    Service.ProcessUpload ⟨store, producer⟩ env src reader size opts =
      { result := .error (.leaf ("invalid file size: " ++ toString size)),
        trace := [], source := reader, reads := [], hashed := [], pending := [] } := by
  simp [Service.ProcessUpload, hsize]

/-- The `Put` of a run with a positive size: the call that is recorded, and where the state
of the readers afterwards comes from. -/
theorem processUpload_put_call {σ : Type} (env : Env) (store : Store) (producer : Producer)
    (src : Source σ) (reader : σ) (size : Int) (opts : UploadOptions) (hsize : 0 < size) :
    (Service.ProcessUpload ⟨store, producer⟩ env src reader size opts).trace.head?
        = some (Call.put (objectKeyOf env opts) size (buildMetadata opts)
            (putRun env store src reader size opts).2.1
            (putRun env store src reader size opts).1) ∧
      (Service.ProcessUpload ⟨store, producer⟩ env src reader size opts).hashed
        = (putRun env store src reader size opts).2.2.tee.hashed ∧
      (Service.ProcessUpload ⟨store, producer⟩ env src reader size opts).pending
        = (putRun env store src reader size opts).2.2.pending ∧
      (Service.ProcessUpload ⟨store, producer⟩ env src reader size opts).source
        = (putRun env store src reader size opts).2.2.tee.src ∧
      (Service.ProcessUpload ⟨store, producer⟩ env src reader size opts).reads
        = (putRun env store src reader size opts).2.2.tee.reads := by
  cases hput : (putRun env store src reader size opts).1 with
  | some err => simp [Service.ProcessUpload, not_le.mpr hsize, hput]
  | none => simp [Service.ProcessUpload, not_le.mpr hsize, hput]

/-- The reader `Put` is handed is fresh, and `Put` is applied to the derived key, the declared
size and the merged metadata. -/
theorem putRun_eq {σ : Type} (env : Env) (store : Store) (src : Source σ) (reader : σ)
    (size : Int) (opts : UploadOptions) :
    putRun env store src reader size opts
      = runPut src (store.Put (objectKeyOf env opts) size (buildMetadata opts))
          { pending := [], err := none, tee := { src := reader, hashed := [], reads := [] } }
          [] := rfl

/-! ## C1: Publish happens exactly after a successful Put and a successful serialisation -/

/-- C1 (counterexample): with the clock standing in the year 10000, Put is invoked and succeeds,
json.Marshal rejects the event, and Publish is never invoked. -/
theorem processUpload_publish_iff_put_ok_fails :
    ¬ ((Service.ProcessUpload ⟨demoStore 3, demoProducer⟩ lateEnv bytesSource [97, 98, 99] 3
          demoOpts).trace.any Call.isPublish = true ↔
        (Service.ProcessUpload ⟨demoStore 3, demoProducer⟩ lateEnv bytesSource [97, 98, 99] 3
          demoOpts).trace.any Call.isPutOk = true) := by
  decide

/-- C1 (amended): in every call of ProcessUpload, Publish is invoked if and only if Put was
invoked and returned no error and the event could be serialised, that is, the clock reading
stamped on the event has a year in 0..9999; a Publish in the trace always has a successful Put
before it; when Put returns an error, ProcessUpload returns an error and Publish is not
invoked; Publish is invoked at most once. -/
theorem processUpload_publish_iff_put_ok_and_marshalled {σ : Type} (env : Env) (store : Store)
    (producer : Producer) (src : Source σ) (reader : σ) (size : Int) (opts : UploadOptions) :
    ((Service.ProcessUpload ⟨store, producer⟩ env src reader size opts).trace.any Call.isPublish = true ↔
      ((Service.ProcessUpload ⟨store, producer⟩ env src reader size opts).trace.any Call.isPutOk = true ∧
        0 ≤ (env.now (clockAfterKey opts)).year ∧ (env.now (clockAfterKey opts)).year ≤ 9999)) ∧
    (∀ i : Nat, (Service.ProcessUpload ⟨store, producer⟩ env src reader size opts).trace[i]?.map Call.isPublish
          = some true →
        ∃ j : Nat, j < i ∧
          (Service.ProcessUpload ⟨store, producer⟩ env src reader size opts).trace[j]?.map Call.isPutOk
            = some true) ∧
    ((Service.ProcessUpload ⟨store, producer⟩ env src reader size opts).trace.any Call.isPutErr = true →
      (∃ e, (Service.ProcessUpload ⟨store, producer⟩ env src reader size opts).result = .error e) ∧
      (Service.ProcessUpload ⟨store, producer⟩ env src reader size opts).trace.any Call.isPublish = false) ∧
    (Service.ProcessUpload ⟨store, producer⟩ env src reader size opts).trace.countP Call.isPublish ≤ 1 := by
  rcases le_or_lt size 0 with hsize | hsize
  · rw [processUpload_rejected env store producer src reader size opts hsize]
    simp
  · cases hput : (putRun env store src reader size opts).1 with
    | some err =>
      obtain ⟨hres, htr⟩ := processUpload_put_err env store producer src reader size opts err hsize hput
      rw [hres, htr]
      refine ⟨by simp [Call.isPublish, Call.isPutOk], ?_, by simp [Call.isPublish], by simp [Call.isPublish]⟩
      intro i hi
      cases i <;> simp [Call.isPublish] at hi
    | none =>
      obtain ⟨hres, htr, -, -⟩ := processUpload_put_ok env store producer src reader size opts hsize hput
      rw [hres, htr]
      rcases announce_cases env producer size opts (putRun env store src reader size opts).2.2.tee.hashed with
        ⟨hy, -, ha⟩ | ⟨hy, perr, ha, -, -⟩
      · rw [ha]
        refine ⟨?_, ?_, by simp [Call.isPutErr], by simp [Call.isPublish]⟩
        · simp only [List.any_cons, List.any_nil, Call.isPublish, Call.isPutOk]
          simp
          intro h1
          exact lt_of_not_le (fun h3 => hy ⟨h1, h3⟩)
        · intro i hi
          cases i <;> simp [Call.isPublish] at hi
      · rw [ha]
        refine ⟨by simp [Call.isPublish, Call.isPutOk, hy], ?_, by simp [Call.isPutErr], by simp [Call.isPublish]⟩
        intro i hi
        match i with
        | 0 => simp [Call.isPublish] at hi
        | i + 1 => exact ⟨0, by omega, by simp [Call.isPutOk]⟩

/-! ## C2: the metadata map -/

theorem GoMap.get_set (m : GoMap) (k v k' : String) :
    (m.set k v).get k' = if k' = k then some v else m.get k' := by
  unfold GoMap.set GoMap.get
  by_cases h : k' = k
  · subst h
    simp [List.lookup]
  · have hb : (k' == k) = false := by simpa using h
    simp only [List.lookup, hb, h, if_false]
    induction m with
    | nil => simp
    | cons e rest ih =>
      obtain ⟨a, b⟩ := e
      by_cases ha : a = k
      · subst ha
        simp [List.filter, List.lookup, hb, ih]
      · have hne : (a != k) = true := by simpa using ha
        by_cases hk : k' = a
        · subst hk
          simp [List.filter, List.lookup, hne]
        · have hb2 : (k' == a) = false := by simpa using hk
          simp [List.filter, List.lookup, hne, hb2, ih]

theorem GoMap.get_eq_none_of_not_mem (m : GoMap) (k : String) (h : k ∉ m.map Prod.fst) :
    m.get k = none := by
  unfold GoMap.get
  induction m with
  | nil => rfl
  | cons e rest ih =>
    obtain ⟨a, b⟩ := e
    simp only [List.map_cons, List.mem_cons, not_or] at h
    have hb : (k == a) = false := by simpa using h.1
    simp [List.lookup, hb, ih h.2]

/-- Assigning the entries of a Go map one by one: afterwards a key of the map holds the map's
value and any other key holds what it held before. -/
theorem GoMap.get_foldl_set (caller : GoMap) (hwf : caller.WF) (init : GoMap) (k : String) :
    (caller.foldl (fun m kv => m.set kv.1 kv.2) init).get k =
      match caller.get k with
      | some v => some v
      | none => init.get k := by
  induction caller generalizing init with
  | nil => simp [GoMap.get]
  | cons e rest ih =>
    obtain ⟨a, b⟩ := e
    have hnd : a ∉ rest.map Prod.fst ∧ GoMap.WF rest := by
      simpa [GoMap.WF] using hwf
    rw [List.foldl_cons, ih hnd.2, GoMap.get_set]
    by_cases hk : k = a
    · subst hk
      have hnone := GoMap.get_eq_none_of_not_mem rest k hnd.1
      simp only [GoMap.get] at hnone
      simp [hnone, GoMap.get, List.lookup]
    · have hb : (k == a) = false := by simpa using hk
      simp [hk, GoMap.get, List.lookup, hb]

/-- C2 (counterexample): the caller supplies `content_type` and `original_filename`; the map
handed to Put holds the caller's values, not the declared content type and file name. -/
theorem processUpload_reserved_keys_overwritten_fails :
    ¬ ((putMetadata (Service.ProcessUpload ⟨demoStore 3, demoProducer⟩ demoEnv bytesSource [97, 98, 99] 3
          shadowOpts).trace).bind (fun m => m.get "content_type")
        = some shadowOpts.ContentType) ∧
      ¬ ((putMetadata (Service.ProcessUpload ⟨demoStore 3, demoProducer⟩ demoEnv bytesSource [97, 98, 99] 3
          shadowOpts).trace).bind (fun m => m.get "original_filename")
        = some shadowOpts.Filename) := by
  decide

/-- C2 (amended): for every upload with size > 0 and every caller metadata map, Put is called
with a metadata map, also the one put in the event, that maps every caller key to the caller's
value, including the keys `original_filename` and `content_type` when the caller supplies them;
it maps `original_filename` to the file name and `content_type` to the content type of the
options only when the caller metadata has no such key, and holds no other key. That map is
what the store's Put is applied to: the error recorded for the call, the bytes delivered and
the bytes hashed are those of running the store's Put on the recorded key, the declared size
and that map against a fresh reader over the input stream, whatever the store does with its
arguments; and the event carrying that map is what Publish is applied to. -/
theorem processUpload_metadata_caller_wins {σ : Type} (env : Env) (store : Store)
    (producer : Producer) (src : Source σ) (reader : σ) (size : Int) (opts : UploadOptions)
    (hsize : 0 < size) (hwf : opts.Metadata.WF) :
    ∃ m, putMetadata (Service.ProcessUpload ⟨store, producer⟩ env src reader size opts).trace
        = some m ∧
      (∀ k v, opts.Metadata.get k = some v → m.get k = some v) ∧
      (opts.Metadata.get "original_filename" = none →
        m.get "original_filename" = some opts.Filename) ∧
      (opts.Metadata.get "content_type" = none →
        m.get "content_type" = some opts.ContentType) ∧
      (∀ k, opts.Metadata.get k = none → k ≠ "original_filename" → k ≠ "content_type" →
        m.get k = none) ∧
      (∀ key payload headers perr,
        Call.publish key payload headers perr ∈
            (Service.ProcessUpload ⟨store, producer⟩ env src reader size opts).trace →
          ∃ ev : IngestionEvent, payload = env.jsonEncode ev ∧ ev.Metadata = m ∧
            jsonMarshal env.jsonEncode ev = .ok payload ∧
            perr = producer.Publish key payload headers) ∧
      ∃ key consumed err final,
        (Service.ProcessUpload ⟨store, producer⟩ env src reader size opts).trace.head?
          = some (Call.put key size m consumed err) ∧
        runPut src (store.Put key size m)
            { pending := [], err := none, tee := { src := reader, hashed := [], reads := [] } }
            []
          = (err, consumed, final) ∧
        final.tee.hashed
          = (Service.ProcessUpload ⟨store, producer⟩ env src reader size opts).hashed ∧
        final.pending
          = (Service.ProcessUpload ⟨store, producer⟩ env src reader size opts).pending := by
  have hget : ∀ k, (buildMetadata opts).get k =
      match opts.Metadata.get k with
      | some v => some v
      | none => GoMap.get [("original_filename", opts.Filename),
          ("content_type", opts.ContentType)] k := fun k => by
    unfold buildMetadata
    exact GoMap.get_foldl_set opts.Metadata hwf _ k
  obtain ⟨hhead, hh, hp, -, -⟩ :=
    processUpload_put_call env store producer src reader size opts hsize
  refine ⟨buildMetadata opts, ?_, ?_, ?_, ?_, ?_, ?_,
    objectKeyOf env opts, (putRun env store src reader size opts).2.1,
    (putRun env store src reader size opts).1, (putRun env store src reader size opts).2.2,
    hhead, ?_, hh.symm, hp.symm⟩
  · cases hput : (putRun env store src reader size opts).1 with
    | some err =>
      rw [(processUpload_put_err env store producer src reader size opts err hsize hput).2]
      simp [putMetadata]
    | none =>
      rw [(processUpload_put_ok env store producer src reader size opts hsize hput).2.1]
      simp [putMetadata]
  · intro k v hk
    rw [hget, hk]
  · intro hk
    rw [hget, hk]
    simp [GoMap.get, List.lookup]
  · intro hk
    rw [hget, hk]
    simp [GoMap.get, List.lookup]
  · intro k hk h1 h2
    rw [hget, hk]
    have hb1 : (k == "original_filename") = false := by simpa using h1
    have hb2 : (k == "content_type") = false := by simpa using h2
    simp [GoMap.get, List.lookup, hb1, hb2]
  · intro key payload headers perr hmem
    cases hput : (putRun env store src reader size opts).1 with
    | some err =>
      rw [(processUpload_put_err env store producer src reader size opts err hsize hput).2] at hmem
      simp at hmem
    | none =>
      rw [(processUpload_put_ok env store producer src reader size opts hsize hput).2.1] at hmem
      rcases announce_cases env producer size opts
          (putRun env store src reader size opts).2.2.tee.hashed with
        ⟨-, -, ha⟩ | ⟨hy, perr2, ha, hpub, -⟩
      · rw [ha] at hmem
        simp at hmem
      · rw [ha] at hmem
        simp only [List.mem_cons, List.mem_singleton, List.mem_nil_iff, or_false] at hmem
        rcases hmem with hmem | hmem
        · cases hmem
        · injection hmem with h1 h2 h3 h4
          subst h4
          have hy2 : 0 ≤ (eventOf env size opts
              (putRun env store src reader size opts).2.2.tee.hashed).CreatedAt.year ∧
              (eventOf env size opts
              (putRun env store src reader size opts).2.2.tee.hashed).CreatedAt.year ≤ 9999 := hy
          refine ⟨eventOf env size opts (putRun env store src reader size opts).2.2.tee.hashed,
            h2, rfl, ?_, ?_⟩
          · rw [h2]
            simp only [jsonMarshal, hy2, and_self, if_true]
          · rw [h1, h2, h3]
            exact hpub
  · rw [← putRun_eq]

/-- C2 (amended) where it matters: the caller supplies `content_type` and
`original_filename`. A store that accepts only the map with the caller's values accepts the
Put; a store that accepts only the map with the declared content type and file name rejects
it. -/
theorem processUpload_metadata_caller_wins_witness :
    (0 : Int) < 3 ∧ shadowOpts.Metadata.WF ∧
    (Service.ProcessUpload
      ⟨expectingStore "2024/03/05/clip.mp4" 3
        [("content_type", "text/plain"), ("original_filename", "x.bin")] 3, demoProducer⟩
      demoEnv bytesSource [97, 98, 99] 3 shadowOpts).trace.any Call.isPutOk = true ∧
    (Service.ProcessUpload
      ⟨expectingStore "2024/03/05/clip.mp4" 3
        [("content_type", "video/mp4"), ("original_filename", "clip.mp4")] 3, demoProducer⟩
      demoEnv bytesSource [97, 98, 99] 3 shadowOpts).trace.any Call.isPutOk = false ∧
    ∃ m, putMetadata (Service.ProcessUpload
        ⟨expectingStore "2024/03/05/clip.mp4" 3
          [("content_type", "text/plain"), ("original_filename", "x.bin")] 3, demoProducer⟩
        demoEnv bytesSource [97, 98, 99] 3 shadowOpts).trace = some m ∧
      (∀ k v, shadowOpts.Metadata.get k = some v → m.get k = some v) ∧
      (shadowOpts.Metadata.get "original_filename" = none →
        m.get "original_filename" = some shadowOpts.Filename) ∧
      (shadowOpts.Metadata.get "content_type" = none →
        m.get "content_type" = some shadowOpts.ContentType) ∧
      (∀ k, shadowOpts.Metadata.get k = none → k ≠ "original_filename" →
        k ≠ "content_type" → m.get k = none) ∧
      (∀ key payload headers perr,
        Call.publish key payload headers perr ∈
            (Service.ProcessUpload
              ⟨expectingStore "2024/03/05/clip.mp4" 3
                [("content_type", "text/plain"), ("original_filename", "x.bin")] 3,
                demoProducer⟩
              demoEnv bytesSource [97, 98, 99] 3 shadowOpts).trace →
          ∃ ev : IngestionEvent, payload = demoEnv.jsonEncode ev ∧ ev.Metadata = m ∧
            jsonMarshal demoEnv.jsonEncode ev = .ok payload ∧
            perr = demoProducer.Publish key payload headers) ∧
      ∃ key consumed err final,
        (Service.ProcessUpload
            ⟨expectingStore "2024/03/05/clip.mp4" 3
              [("content_type", "text/plain"), ("original_filename", "x.bin")] 3,
              demoProducer⟩
            demoEnv bytesSource [97, 98, 99] 3 shadowOpts).trace.head?
          = some (Call.put key 3 m consumed err) ∧
        runPut bytesSource
            ((expectingStore "2024/03/05/clip.mp4" 3
              [("content_type", "text/plain"), ("original_filename", "x.bin")] 3).Put
              key 3 m)
            { pending := [], err := none,
              tee := { src := [97, 98, 99], hashed := [], reads := [] } }
            []
          = (err, consumed, final) ∧
        final.tee.hashed
          = (Service.ProcessUpload
              ⟨expectingStore "2024/03/05/clip.mp4" 3
                [("content_type", "text/plain"), ("original_filename", "x.bin")] 3,
                demoProducer⟩
              demoEnv bytesSource [97, 98, 99] 3 shadowOpts).hashed ∧
        final.pending
          = (Service.ProcessUpload
              ⟨expectingStore "2024/03/05/clip.mp4" 3
                [("content_type", "text/plain"), ("original_filename", "x.bin")] 3,
                demoProducer⟩
              demoEnv bytesSource [97, 98, 99] 3 shadowOpts).pending :=
  ⟨by decide, by decide, by decide, by decide,
    processUpload_metadata_caller_wins demoEnv
      (expectingStore "2024/03/05/clip.mp4" 3
        [("content_type", "text/plain"), ("original_filename", "x.bin")] 3)
      demoProducer bytesSource [97, 98, 99] 3 shadowOpts (by decide) (by decide)⟩

/-! ## C3: which bytes the checksum covers -/

/-- One `Read` on the buffered reader keeps the bytes fed to the hasher equal to the bytes
delivered so far followed by the bytes still buffered. -/
theorem bufioRead_hashed {σ : Type} (src : Source σ) (b : BufState σ) (n : Nat)
    (acc : List Byte) (hinv : b.tee.hashed = acc ++ b.pending) :
    (bufioRead src b n).2.tee.hashed
      = (acc ++ (bufioRead src b n).1.1) ++ (bufioRead src b n).2.pending := by
  unfold bufioRead
  by_cases hn : n = 0
  · by_cases hp : b.pending.length > 0
    · simp [hn, hp, hinv]
    · simp [hn, hp, hinv]
  · by_cases hp : b.pending.length = 0
    · have hnil : b.pending = [] := List.length_eq_zero.mp hp
      by_cases he : b.err.isSome
      · simp [hn, hp, he, hinv]
      · by_cases hbig : n ≥ bufSize
        · simp [hn, hp, he, hbig, teeRead, hinv, hnil]
        · by_cases hd : ((src.readInto b.tee.src bufSize).data).length = 0
          · have hdnil := List.length_eq_zero.mp hd
            simp [hn, hp, he, hbig, teeRead, hinv, hnil, hdnil]
          · simp [hn, hp, he, hbig, teeRead, hinv, hnil, hd]
    · simp [hn, hp, hinv]

/-- Running `Put` keeps that relation. -/
theorem runPut_hashed {σ : Type} (src : Source σ) (p : PutProg) (b : BufState σ)
    (acc : List Byte) (hinv : b.tee.hashed = acc ++ b.pending) :
    (runPut src p b acc).2.2.tee.hashed
      = (runPut src p b acc).2.1 ++ (runPut src p b acc).2.2.pending := by
  induction p generalizing b acc with
  | ret e => simpa [runPut] using hinv
  | read n k ih =>
    simp only [runPut]
    exact ih _ _ _ _ (bufioRead_hashed src b n acc hinv)

theorem putRun_hashed {σ : Type} (env : Env) (store : Store) (src : Source σ) (reader : σ)
    (size : Int) (opts : UploadOptions) :
    (putRun env store src reader size opts).2.2.tee.hashed
      = (putRun env store src reader size opts).2.1
          ++ (putRun env store src reader size opts).2.2.pending := by
  unfold putRun
  exact runPut_hashed src _ _ [] rfl

/-- C3 (counterexample): the stream holds five bytes, Put reads three of them and reports
success; the checksum returned is the digest of all five bytes, which the buffered reader had
pulled through the tee, not of the three bytes Put consumed. -/
theorem processUpload_checksum_of_consumed_fails :
    ∃ res consumed,
      (Service.ProcessUpload ⟨demoStore 3, demoProducer⟩ demoEnv bytesSource [97, 98, 99, 100, 101] 3
        demoOpts).result = .ok res ∧
      putConsumed (Service.ProcessUpload ⟨demoStore 3, demoProducer⟩ demoEnv bytesSource
        [97, 98, 99, 100, 101] 3 demoOpts).trace = some consumed ∧
      consumed = [97, 98, 99] ∧
      res.Checksum ≠ encodeToString (SHA256.sum256 consumed) :=
  ⟨_, _, rfl, rfl, rfl, by decide⟩

/-- C3 (amended): for every upload for which ProcessUpload returns a result, Put was called
and returned no error, and result.Checksum is the hex-encoded SHA-256 digest of the bytes the
buffered reader drew from the source: the bytes Put consumed followed by the bytes read ahead
and left in the buffer. It is the digest of exactly the bytes Put consumed whenever Put left
no read-ahead bytes in the buffer. -/
theorem processUpload_checksum_covers_drawn {σ : Type} (env : Env) (store : Store)
    (producer : Producer) (src : Source σ) (reader : σ) (size : Int) (opts : UploadOptions)
    (res : UploadResult)
    (hres : (Service.ProcessUpload ⟨store, producer⟩ env src reader size opts).result = .ok res) :
    ∃ consumed,
      putConsumed (Service.ProcessUpload ⟨store, producer⟩ env src reader size opts).trace
        = some consumed ∧
      (Service.ProcessUpload ⟨store, producer⟩ env src reader size opts).trace.any Call.isPutOk = true ∧
      (Service.ProcessUpload ⟨store, producer⟩ env src reader size opts).hashed
        = consumed ++ (Service.ProcessUpload ⟨store, producer⟩ env src reader size opts).pending ∧
      res.Checksum = encodeToString (SHA256.sum256
        (consumed ++ (Service.ProcessUpload ⟨store, producer⟩ env src reader size opts).pending)) ∧
      ((Service.ProcessUpload ⟨store, producer⟩ env src reader size opts).pending = [] →
        res.Checksum = encodeToString (SHA256.sum256 consumed)) := by
  rcases le_or_lt size 0 with hsize | hsize
  · rw [processUpload_rejected env store producer src reader size opts hsize] at hres
    simp at hres
  · cases hput : (putRun env store src reader size opts).1 with
    | some err =>
      rw [(processUpload_put_err env store producer src reader size opts err hsize hput).1] at hres
      simp at hres
    | none =>
      obtain ⟨hr, htr, hh, hp⟩ :=
        processUpload_put_ok env store producer src reader size opts hsize hput
      have hinv := putRun_hashed env store src reader size opts
      have hck : res.Checksum = encodeToString (SHA256.sum256
          (putRun env store src reader size opts).2.2.tee.hashed) := by
        rw [hr] at hres
        rcases announce_cases env producer size opts
            (putRun env store src reader size opts).2.2.tee.hashed with
          ⟨-, ⟨e, he⟩, -⟩ | ⟨-, perr, -, -, ha⟩
        · rw [he] at hres
          simp at hres
        · rw [ha] at hres
          cases perr with
          | some e => simp at hres
          | none =>
            simp at hres
            rw [← hres]
      refine ⟨(putRun env store src reader size opts).2.1, ?_, ?_, ?_, ?_, ?_⟩
      · rw [htr]
        simp [putConsumed]
      · rw [htr]
        simp [Call.isPutOk]
      · rw [hh, hp]
        exact hinv
      · rw [hp, ← hinv]
        exact hck
      · intro hnil
        rw [hp] at hnil
        rw [hck, hinv, hnil, List.append_nil]

/-- C3 (amended) on a run where Put reads the whole three-byte stream. -/
theorem processUpload_checksum_covers_drawn_witness :
    ∃ res,
      (Service.ProcessUpload ⟨demoStore 3, demoProducer⟩ demoEnv bytesSource [97, 98, 99] 3
        demoOpts).result = .ok res ∧
      ∃ consumed,
        putConsumed (Service.ProcessUpload ⟨demoStore 3, demoProducer⟩ demoEnv bytesSource [97, 98, 99] 3
          demoOpts).trace = some consumed ∧
        (Service.ProcessUpload ⟨demoStore 3, demoProducer⟩ demoEnv bytesSource [97, 98, 99] 3
          demoOpts).trace.any Call.isPutOk = true ∧
        (Service.ProcessUpload ⟨demoStore 3, demoProducer⟩ demoEnv bytesSource [97, 98, 99] 3
          demoOpts).hashed
          = consumed ++ (Service.ProcessUpload ⟨demoStore 3, demoProducer⟩ demoEnv bytesSource
              [97, 98, 99] 3 demoOpts).pending ∧
        res.Checksum = encodeToString (SHA256.sum256
          (consumed ++ (Service.ProcessUpload ⟨demoStore 3, demoProducer⟩ demoEnv bytesSource
              [97, 98, 99] 3 demoOpts).pending)) ∧
        ((Service.ProcessUpload ⟨demoStore 3, demoProducer⟩ demoEnv bytesSource [97, 98, 99] 3
            demoOpts).pending = [] →
          res.Checksum = encodeToString (SHA256.sum256 consumed)) :=
  ⟨_, rfl, processUpload_checksum_covers_drawn demoEnv (demoStore 3) demoProducer bytesSource
    [97, 98, 99] 3 demoOpts _ rfl⟩

/-! ## C4: a non-positive size is rejected before anything else happens -/

/-- C4: for every declared size that is zero or negative, ProcessUpload returns the
invalid-size error and no result, issues no Read on the input stream and leaves it as it was,
feeds nothing to the hasher, and calls neither Put nor Publish. -/
theorem processUpload_rejects_nonpositive_size {σ : Type} (env : Env) (store : Store)
    (producer : Producer) (src : Source σ) (reader : σ) (size : Int) (opts : UploadOptions)
    (hsize : size ≤ 0) :
    (Service.ProcessUpload ⟨store, producer⟩ env src reader size opts).result
        = .error (.leaf ("invalid file size: " ++ toString size)) ∧
      (Service.ProcessUpload ⟨store, producer⟩ env src reader size opts).reads = [] ∧
      (Service.ProcessUpload ⟨store, producer⟩ env src reader size opts).source = reader ∧
      (Service.ProcessUpload ⟨store, producer⟩ env src reader size opts).hashed = [] ∧
      (Service.ProcessUpload ⟨store, producer⟩ env src reader size opts).trace = [] := by
  rw [processUpload_rejected env store producer src reader size opts hsize]
  simp

/-- C4 at the declared size 0 of the spec's scenario. -/
theorem processUpload_rejects_nonpositive_size_witness :
    (0 : Int) ≤ 0 ∧
      (Service.ProcessUpload ⟨demoStore 3, demoProducer⟩ demoEnv bytesSource [97, 98, 99] 0
          demoOpts).result = .error (.leaf ("invalid file size: " ++ toString (0 : Int))) ∧
      (Service.ProcessUpload ⟨demoStore 3, demoProducer⟩ demoEnv bytesSource [97, 98, 99] 0
          demoOpts).reads = [] ∧
      (Service.ProcessUpload ⟨demoStore 3, demoProducer⟩ demoEnv bytesSource [97, 98, 99] 0
          demoOpts).source = [97, 98, 99] ∧
      (Service.ProcessUpload ⟨demoStore 3, demoProducer⟩ demoEnv bytesSource [97, 98, 99] 0
          demoOpts).hashed = [] ∧
      (Service.ProcessUpload ⟨demoStore 3, demoProducer⟩ demoEnv bytesSource [97, 98, 99] 0
          demoOpts).trace = [] :=
  ⟨le_refl 0, processUpload_rejects_nonpositive_size demoEnv (demoStore 3) demoProducer
    bytesSource [97, 98, 99] 0 demoOpts (le_refl 0)⟩

/-! ## C5: a failed Publish leaves the stored object alone -/

/-- C5: for every upload where Put succeeds and Publish returns an error, ProcessUpload returns
an error that wraps the publish error and no result; the calls it made are that one Put and
that one Publish, so the only call on the storage writer is the single successful Put and
nothing deletes or overwrites the stored object. -/
theorem processUpload_publish_error_no_compensation {σ : Type} (env : Env) (store : Store)
    (producer : Producer) (src : Source σ) (reader : σ) (size : Int) (opts : UploadOptions)
    (key payload : List Byte) (headers : GoMap) (e : GoError)
    (hput : (Service.ProcessUpload ⟨store, producer⟩ env src reader size opts).trace.any Call.isPutOk
      = true)
    (hpub : Call.publish key payload headers (some e) ∈
      (Service.ProcessUpload ⟨store, producer⟩ env src reader size opts).trace) :
    (Service.ProcessUpload ⟨store, producer⟩ env src reader size opts).result
        = .error (errorfWrap "publish ingestion event" e) ∧
      (errorfWrap "publish ingestion event" e).unwrap = some e ∧
      ∃ consumed,
        (Service.ProcessUpload ⟨store, producer⟩ env src reader size opts).trace
          = [Call.put (objectKeyOf env opts) size (buildMetadata opts) consumed none,
             Call.publish key payload headers (some e)] ∧
        (Service.ProcessUpload ⟨store, producer⟩ env src reader size opts).trace.filter Call.onStore
          = [Call.put (objectKeyOf env opts) size (buildMetadata opts) consumed none] := by
  rcases le_or_lt size 0 with hsize | hsize
  · rw [processUpload_rejected env store producer src reader size opts hsize] at hpub
    simp at hpub
  · cases hrun : (putRun env store src reader size opts).1 with
    | some err =>
      rw [(processUpload_put_err env store producer src reader size opts err hsize hrun).2]
        at hput
      simp [Call.isPutOk] at hput
    | none =>
      obtain ⟨hr, htr, -, -⟩ :=
        processUpload_put_ok env store producer src reader size opts hsize hrun
      rw [hr, htr]
      rw [htr] at hpub
      rcases announce_cases env producer size opts
          (putRun env store src reader size opts).2.2.tee.hashed with
        ⟨-, -, ha⟩ | ⟨-, perr, ha, -, hres⟩
      · rw [ha] at hpub
        simp at hpub
      · rw [ha] at hpub
        simp only [List.mem_cons, List.mem_singleton, List.mem_nil_iff, or_false] at hpub
        rcases hpub with hpub | hpub
        · cases hpub
        · injection hpub with h1 h2 h3 h4
          subst h4
          rw [hres, ha]
          refine ⟨rfl, rfl, (putRun env store src reader size opts).2.1, ?_, ?_⟩
          · rw [h1, h2, h3]
          · simp [Call.onStore]

/-- C5 on a run against a producer whose Publish fails. -/
theorem processUpload_publish_error_no_compensation_witness :
    (Service.ProcessUpload ⟨demoStore 3, failingProducer⟩ demoEnv bytesSource [97, 98, 99] 3
        demoOpts).trace.any Call.isPutOk = true ∧
      (Service.ProcessUpload ⟨demoStore 3, failingProducer⟩ demoEnv bytesSource [97, 98, 99] 3
          demoOpts).result
        = .error (errorfWrap "publish ingestion event" (.leaf "broker unavailable")) ∧
      (errorfWrap "publish ingestion event" (.leaf "broker unavailable")).unwrap
        = some (.leaf "broker unavailable") ∧
      ∃ consumed,
        (Service.ProcessUpload ⟨demoStore 3, failingProducer⟩ demoEnv bytesSource [97, 98, 99] 3
            demoOpts).trace
          = [Call.put (objectKeyOf demoEnv demoOpts) 3 (buildMetadata demoOpts) consumed none,
             Call.publish (bytesOfString "9c1d") (bytesOfString "9c1d")
               [("media_id", "9c1d"), ("event_type", "ingestion.created")]
               (some (.leaf "broker unavailable"))] ∧
        (Service.ProcessUpload ⟨demoStore 3, failingProducer⟩ demoEnv bytesSource [97, 98, 99] 3
            demoOpts).trace.filter Call.onStore
          = [Call.put (objectKeyOf demoEnv demoOpts) 3 (buildMetadata demoOpts) consumed
              none] :=
  ⟨by decide,
    processUpload_publish_error_no_compensation demoEnv (demoStore 3) failingProducer
      bytesSource [97, 98, 99] 3 demoOpts (bytesOfString "9c1d") (bytesOfString "9c1d")
      [("media_id", "9c1d"), ("event_type", "ingestion.created")] (.leaf "broker unavailable")
      (by decide) (by decide)⟩

/-! ## C6: Service.Close -/

/-- C6 (the code at the failing input): whenever the producer's Close returns an error,
Service.Close returns that error at once; the only call it makes is the producer's Close, and
the storage writer is not closed. -/
theorem Close_skips_store_after_producer_error (store : Store)
    (publish : List Byte → List Byte → GoMap → Option GoError) (e : GoError) :
    Service.Close ⟨store, { Publish := publish, Close := some e }⟩
        = (some e, [Call.producerClose (some e)]) ∧
      (Service.Close ⟨store, { Publish := publish, Close := some e }⟩).2.any Call.onStore
        = false := by
  simp [Service.Close, Call.onStore]

/-! ## C7: the object key -/

/-- The layout `2006/01/02` yields ten characters for a civil date with a four-digit year. -/
theorem formatDate_length (t : Time) (hy0 : 0 ≤ t.year) (hy : t.year ≤ 9999)
    (hm : t.month ≤ 12) (hd : t.day ≤ 31) : (formatDate t).length = 10 := by
  have hlen : ∀ n e : Nat, 0 < e → n < 10 ^ e → (Nat.toDigits 10 n).length ≤ e :=
    fun n e he hn => Nat.toDigitsCore_length 10 (by decide) (n + 1) n e hn he
  have hpad : ∀ (x : Int) (w : Nat), 0 ≤ x → 0 < w → x.natAbs < 10 ^ w →
      (appendInt x w).length = w := by
    intro x w hx hw hlt
    have h1 := hlen x.natAbs w hw hlt
    have h2 : ¬ x < 0 := not_lt.mpr hx
    simp only [appendInt, h2, if_false, String.length, List.nil_append, List.length_append,
      List.length_replicate]
    omega
  have e1 := hpad t.year 4 hy0 (by decide) (by omega)
  have e2 := hpad (t.month : Int) 2 (by omega) (by decide) (by simp; omega)
  have e3 := hpad (t.day : Int) 2 (by omega) (by decide) (by simp; omega)
  simp only [formatDate, String.length_append, e1, e2, e3]
  rfl

/-- C7: for every upload with size > 0, Put is called, and the key it is called with is the
formatted date, a slash and the file name taken verbatim when the file name is non-empty, and
the formatted date, a slash and the first token generated by this call when it is empty; the
date is a clock reading taken by this call and formatted with the layout `2006/01/02`, ten
characters for a date with a year in 0..9999. That key is what the store's Put is applied to:
the error recorded for the call, the bytes delivered and the bytes hashed are those of running
the store's Put on that key, the declared size and the recorded metadata against a fresh
reader over the input stream, whatever the store does with its arguments. -/
theorem processUpload_object_key {σ : Type} (env : Env) (store : Store)
    (producer : Producer) (src : Source σ) (reader : σ) (size : Int) (opts : UploadOptions)
    (hsize : 0 < size) :
    (opts.Filename ≠ "" →
        putKey (Service.ProcessUpload ⟨store, producer⟩ env src reader size opts).trace
          = some (formatDate (env.now 1) ++ "/" ++ opts.Filename)) ∧
      (opts.Filename = "" →
        putKey (Service.ProcessUpload ⟨store, producer⟩ env src reader size opts).trace
          = some (formatDate (env.now 0) ++ "/" ++ env.newUUID 0)) ∧
      (∀ n, 0 ≤ (env.now n).year → (env.now n).year ≤ 9999 → (env.now n).month ≤ 12 →
        (env.now n).day ≤ 31 → (formatDate (env.now n)).length = 10) ∧
      ∃ key metadata consumed err final,
        (opts.Filename ≠ "" → key = formatDate (env.now 1) ++ "/" ++ opts.Filename) ∧
        (opts.Filename = "" → key = formatDate (env.now 0) ++ "/" ++ env.newUUID 0) ∧
        (Service.ProcessUpload ⟨store, producer⟩ env src reader size opts).trace.head?
          = some (Call.put key size metadata consumed err) ∧
        runPut src (store.Put key size metadata)
            { pending := [], err := none, tee := { src := reader, hashed := [], reads := [] } }
            []
          = (err, consumed, final) ∧
        final.tee.hashed
          = (Service.ProcessUpload ⟨store, producer⟩ env src reader size opts).hashed ∧
        final.pending
          = (Service.ProcessUpload ⟨store, producer⟩ env src reader size opts).pending := by
  obtain ⟨hhead, hh, hp, -, -⟩ :=
    processUpload_put_call env store producer src reader size opts hsize
  have hkey : putKey (Service.ProcessUpload ⟨store, producer⟩ env src reader size opts).trace
      = some (objectKeyOf env opts) := by
    cases hput : (putRun env store src reader size opts).1 with
    | some err =>
      rw [(processUpload_put_err env store producer src reader size opts err hsize hput).2]
      simp [putKey]
    | none =>
      rw [(processUpload_put_ok env store producer src reader size opts hsize hput).2.1]
      simp [putKey]
  have hne : opts.Filename ≠ "" →
      objectKeyOf env opts = formatDate (env.now 1) ++ "/" ++ opts.Filename := by
    intro hne
    simp [objectKeyOf, sprintfPath, hne]
  have hempty : opts.Filename = "" →
      objectKeyOf env opts = formatDate (env.now 0) ++ "/" ++ env.newUUID 0 := by
    intro he
    simp [objectKeyOf, sprintfPath, he]
  refine ⟨?_, ?_, fun n h1 h2 h3 h4 => formatDate_length _ h1 h2 h3 h4,
    objectKeyOf env opts, buildMetadata opts, (putRun env store src reader size opts).2.1,
    (putRun env store src reader size opts).1, (putRun env store src reader size opts).2.2,
    hne, hempty, hhead, ?_, hh.symm, hp.symm⟩
  · intro h
    rw [hkey, hne h]
  · intro h
    rw [hkey, hempty h]
  · rw [← putRun_eq]

/-- C7 on a file name with path separators and on an upload without a file name, against
stores that accept only the expected key: the key with the separators left as they are is
accepted, the same key with the separators escaped is not. -/
theorem processUpload_object_key_witness :
    (0 : Int) < 3 ∧ nestedOpts.Filename ≠ "" ∧ namelessOpts.Filename = "" ∧
      (Service.ProcessUpload
        ⟨expectingStore "2024/03/05/raw/../cam 1/clip.mp4" 3
          [("original_filename", "raw/../cam 1/clip.mp4"), ("content_type", "video/mp4")] 3,
          demoProducer⟩
        demoEnv bytesSource [97, 98, 99] 3 nestedOpts).trace.any Call.isPutOk = true ∧
      (Service.ProcessUpload
        ⟨expectingStore "2024/03/05/raw%2F..%2Fcam 1%2Fclip.mp4" 3
          [("original_filename", "raw/../cam 1/clip.mp4"), ("content_type", "video/mp4")] 3,
          demoProducer⟩
        demoEnv bytesSource [97, 98, 99] 3 nestedOpts).trace.any Call.isPutOk = false ∧
      (Service.ProcessUpload
        ⟨expectingStore "2024/03/05/3f2b" 3
          [("original_filename", ""), ("content_type", "video/mp4")] 3, demoProducer⟩
        demoEnv bytesSource [97, 98, 99] 3 namelessOpts).trace.any Call.isPutOk = true ∧
      putKey (Service.ProcessUpload
        ⟨expectingStore "2024/03/05/raw/../cam 1/clip.mp4" 3
          [("original_filename", "raw/../cam 1/clip.mp4"), ("content_type", "video/mp4")] 3,
          demoProducer⟩
        demoEnv bytesSource [97, 98, 99] 3 nestedOpts).trace
          = some "2024/03/05/raw/../cam 1/clip.mp4" ∧
      putKey (Service.ProcessUpload
        ⟨expectingStore "2024/03/05/3f2b" 3
          [("original_filename", ""), ("content_type", "video/mp4")] 3, demoProducer⟩
        demoEnv bytesSource [97, 98, 99] 3 namelessOpts).trace = some "2024/03/05/3f2b" :=
  ⟨by decide, by decide, by decide, by decide, by decide, by decide,
    ((processUpload_object_key demoEnv
      (expectingStore "2024/03/05/raw/../cam 1/clip.mp4" 3
        [("original_filename", "raw/../cam 1/clip.mp4"), ("content_type", "video/mp4")] 3)
      demoProducer bytesSource [97, 98, 99] 3 nestedOpts (by decide)).1 (by decide)).trans
      (by decide),
    ((processUpload_object_key demoEnv
      (expectingStore "2024/03/05/3f2b" 3
        [("original_filename", ""), ("content_type", "video/mp4")] 3)
      demoProducer bytesSource [97, 98, 99] 3 namelessOpts (by decide)).2.1 (by decide)).trans
      (by decide)⟩

/-! ## C8: what is published and what is returned -/

/-- C8: for every upload that reaches the publish step, Publish is called with the bytes of the
event identity as partition key, with headers `media_id` = the event identity and
`event_type` = `ingestion.created`, and with the serialisation of an event whose id is that
identity and whose key, size, content type, metadata and checksum are those of the upload; when
that Publish succeeds, ProcessUpload returns a result that carries the same identity, object
key, checksum and size as the event, the size being the declared size. Those are the arguments
the producer's Publish is applied to: the error recorded for the call is what the producer
returns on that key, that payload and those headers, whatever the producer does with them; the
key is the UTF-8 encoding of the identity. -/
theorem processUpload_publish_arguments {σ : Type} (env : Env) (store : Store)
    (producer : Producer) (src : Source σ) (reader : σ) (size : Int) (opts : UploadOptions)
    (key payload : List Byte) (headers : GoMap) (perr : Option GoError)
    (hpub : Call.publish key payload headers perr ∈
      (Service.ProcessUpload ⟨store, producer⟩ env src reader size opts).trace) :
    ∃ ev : IngestionEvent,
      key = bytesOfString ev.ID ∧
      headers.get "media_id" = some ev.ID ∧
      headers.get "event_type" = some "ingestion.created" ∧
      jsonMarshal env.jsonEncode ev = .ok payload ∧
      ev.ID = env.newUUID 1 ∧
      putKey (Service.ProcessUpload ⟨store, producer⟩ env src reader size opts).trace
        = some ev.ObjectKey ∧
      ev.SizeBytes = size ∧
      ev.ContentType = opts.ContentType ∧
      putMetadata (Service.ProcessUpload ⟨store, producer⟩ env src reader size opts).trace
        = some ev.Metadata ∧
      ev.Checksum = encodeToString (SHA256.sum256
        (Service.ProcessUpload ⟨store, producer⟩ env src reader size opts).hashed) ∧
      (perr = none →
        ∃ res, (Service.ProcessUpload ⟨store, producer⟩ env src reader size opts).result
            = .ok res ∧
          res.MediaID = ev.ID ∧ res.ObjectKey = ev.ObjectKey ∧ res.Checksum = ev.Checksum ∧
          res.Size = ev.SizeBytes ∧ res.Size = size) ∧
      key = ev.ID.toUTF8.data.toList ∧
      payload = env.jsonEncode ev ∧
      headers.length = 2 ∧
      perr = producer.Publish key payload headers ∧
      (Service.ProcessUpload ⟨store, producer⟩ env src reader size opts).trace.getLast?
        = some (Call.publish key payload headers perr) := by
  rcases le_or_lt size 0 with hsize | hsize
  · rw [processUpload_rejected env store producer src reader size opts hsize] at hpub
    simp at hpub
  · cases hrun : (putRun env store src reader size opts).1 with
    | some err =>
      rw [(processUpload_put_err env store producer src reader size opts err hsize hrun).2]
        at hpub
      simp at hpub
    | none =>
      obtain ⟨hr, htr, hh, -⟩ :=
        processUpload_put_ok env store producer src reader size opts hsize hrun
      rw [hr, htr, hh]
      rw [htr] at hpub
      rcases announce_cases env producer size opts
          (putRun env store src reader size opts).2.2.tee.hashed with
        ⟨-, -, ha⟩ | ⟨hy, perr2, ha, hcall, hres⟩
      · rw [ha] at hpub
        simp at hpub
      · rw [ha] at hpub
        simp only [List.mem_cons, List.mem_singleton, List.mem_nil_iff, or_false] at hpub
        rcases hpub with hpub | hpub
        · cases hpub
        · injection hpub with h1 h2 h3 h4
          subst h4
          refine ⟨eventOf env size opts (putRun env store src reader size opts).2.2.tee.hashed,
            h1, ?_, ?_, ?_, rfl, ?_, rfl, rfl, ?_, rfl, ?_, h1, h2, ?_, ?_, ?_⟩
          · rw [h3]
            simp [GoMap.get, List.lookup, eventOf]
          · rw [h3]
            simp [GoMap.get, List.lookup]
          · have hy2 : 0 ≤ (eventOf env size opts
                (putRun env store src reader size opts).2.2.tee.hashed).CreatedAt.year ∧
                (eventOf env size opts
                (putRun env store src reader size opts).2.2.tee.hashed).CreatedAt.year ≤ 9999 := hy
            rw [h2]
            simp only [jsonMarshal, hy2, and_self, if_true]
          · simp [putKey, eventOf]
          · simp [putMetadata, eventOf]
          · intro hnone
            subst hnone
            rw [hres]
            exact ⟨_, rfl, rfl, rfl, rfl, rfl, rfl⟩
          · rw [h3]
            rfl
          · rw [h1, h2, h3]
            exact hcall
          · rw [ha, h1, h2, h3]
            rfl

set_option maxRecDepth 20000 in
/-- C8 on the spec's scenario, a 3-byte upload that is stored and announced, against a
producer that accepts only the expected message: the key is the four bytes of `9c1d`, the
payload holds the identity, the object key, the content type and the checksum, and the upload
succeeds; a producer that expects another key rejects the message and the upload fails. -/
theorem processUpload_publish_arguments_witness :
    Call.publish [57, 99, 49, 100] recordPayload
        [("media_id", "9c1d"), ("event_type", "ingestion.created")] none ∈
      (Service.ProcessUpload ⟨demoStore 3, recordProducer⟩ recordEnv bytesSource [97, 98, 99] 3
        demoOpts).trace ∧
    (Service.ProcessUpload ⟨demoStore 3, recordProducer⟩ recordEnv bytesSource [97, 98, 99] 3
        demoOpts).result
      = .ok ⟨"9c1d", "2024/03/05/clip.mp4",
          "ba7816bf8f01cfea414140de5dae2223b00361a396177a9cb410ff61f20015ad", 3,
          ⟨2024, 3, 5, 3⟩⟩ ∧
    (Service.ProcessUpload ⟨demoStore 3, wrongKeyProducer⟩ recordEnv bytesSource [97, 98, 99] 3
        demoOpts).result
      = .error (errorfWrap "publish ingestion event" (.leaf "unexpected message")) ∧
    ∃ ev : IngestionEvent,
      [57, 99, 49, 100] = bytesOfString ev.ID ∧
      GoMap.get [("media_id", "9c1d"), ("event_type", "ingestion.created")] "media_id"
        = some ev.ID ∧
      GoMap.get [("media_id", "9c1d"), ("event_type", "ingestion.created")] "event_type"
        = some "ingestion.created" ∧
      jsonMarshal recordEnv.jsonEncode ev = .ok recordPayload ∧
      ev.ID = recordEnv.newUUID 1 ∧
      putKey (Service.ProcessUpload ⟨demoStore 3, recordProducer⟩ recordEnv bytesSource
        [97, 98, 99] 3 demoOpts).trace = some ev.ObjectKey ∧
      ev.SizeBytes = 3 ∧
      ev.ContentType = demoOpts.ContentType ∧
      putMetadata (Service.ProcessUpload ⟨demoStore 3, recordProducer⟩ recordEnv bytesSource
        [97, 98, 99] 3 demoOpts).trace = some ev.Metadata ∧
      ev.Checksum = encodeToString (SHA256.sum256
        (Service.ProcessUpload ⟨demoStore 3, recordProducer⟩ recordEnv bytesSource
          [97, 98, 99] 3 demoOpts).hashed) ∧
      ((none : Option GoError) = none →
        ∃ res, (Service.ProcessUpload ⟨demoStore 3, recordProducer⟩ recordEnv bytesSource
            [97, 98, 99] 3 demoOpts).result = .ok res ∧
          res.MediaID = ev.ID ∧ res.ObjectKey = ev.ObjectKey ∧ res.Checksum = ev.Checksum ∧
          res.Size = ev.SizeBytes ∧ res.Size = 3) ∧
      [57, 99, 49, 100] = ev.ID.toUTF8.data.toList ∧
      recordPayload = recordEnv.jsonEncode ev ∧
      List.length [("media_id", "9c1d"), ("event_type", "ingestion.created")] = 2 ∧
      none = recordProducer.Publish [57, 99, 49, 100] recordPayload
        [("media_id", "9c1d"), ("event_type", "ingestion.created")] ∧
      (Service.ProcessUpload ⟨demoStore 3, recordProducer⟩ recordEnv bytesSource [97, 98, 99] 3
          demoOpts).trace.getLast?
        = some (Call.publish [57, 99, 49, 100] recordPayload
            [("media_id", "9c1d"), ("event_type", "ingestion.created")] none) :=
  ⟨by decide, by decide, by decide,
    processUpload_publish_arguments recordEnv (demoStore 3) recordProducer bytesSource
      [97, 98, 99] 3 demoOpts _ _ _ _ (by decide)⟩

/-! ## C9: the shape of the checksum -/

theorem SHA256.beBytes_length (n x : Nat) : (SHA256.beBytes n x).length = n := by
  induction n with
  | zero => rfl
  | succ n ih => simp [SHA256.beBytes, ih]

/-- A SHA-256 digest has 32 bytes. -/
theorem SHA256.sum256_length (msg : List Byte) : (SHA256.sum256 msg).length = 32 := by
  simp [SHA256.sum256, SHA256.beBytes_length]

/-- Hex encoding doubles the length. -/
theorem encodeToString_length (src : List Byte) :
    (encodeToString src).length = 2 * src.length := by
  have hlen : ∀ (f : Byte → Char) (g : Byte → Char) (l : List Byte),
      (l.flatMap fun v => [f v, g v]).length = 2 * l.length := by
    intro f g l
    induction l with
    | nil => rfl
    | cons v rest ih =>
      simp only [List.flatMap_cons, List.length_append, List.length_cons, List.length_nil, ih]
      omega
  unfold encodeToString
  simp only [String.length]
  exact hlen _ _ src

/-- Hex encoding emits only the characters of the lower-case table. -/
theorem encodeToString_chars (src : List Byte) :
    ∀ c ∈ (encodeToString src).data, c ∈ hextable := by
  have htab : ∀ i : Nat, hextable.getD i '0' ∈ hextable := by
    intro i
    by_cases hi : i < 16
    · interval_cases i <;> decide
    · have hlen : hextable.length ≤ i := by
        have : hextable.length = 16 := by decide
        omega
      rw [List.getD_eq_default _ _ hlen]
      decide
  intro c hc
  simp only [encodeToString, List.mem_flatMap, List.mem_cons, List.mem_singleton,
    List.mem_nil_iff, or_false] at hc
  obtain ⟨v, -, hv | hv⟩ := hc
  · rw [hv]
    exact htab _
  · rw [hv]
    exact htab _

/-- C9: for every upload for which ProcessUpload returns a result, result.Checksum has exactly
64 characters, each one of 0-9 or a-f, whatever the payload; the checksum field of the event
that was published is that same string. -/
theorem processUpload_checksum_shape {σ : Type} (env : Env) (store : Store)
    (producer : Producer) (src : Source σ) (reader : σ) (size : Int) (opts : UploadOptions)
    (res : UploadResult)
    (hres : (Service.ProcessUpload ⟨store, producer⟩ env src reader size opts).result = .ok res) :
    res.Checksum.length = 64 ∧
      (∀ c ∈ res.Checksum.data, ('0' ≤ c ∧ c ≤ '9') ∨ ('a' ≤ c ∧ c ≤ 'f')) ∧
      ∃ (key : List Byte) (headers : GoMap) (ev : IngestionEvent),
        Call.publish key (env.jsonEncode ev) headers none ∈
          (Service.ProcessUpload ⟨store, producer⟩ env src reader size opts).trace ∧
        ev.Checksum = res.Checksum := by
  rcases le_or_lt size 0 with hsize | hsize
  · rw [processUpload_rejected env store producer src reader size opts hsize] at hres
    simp at hres
  · cases hput : (putRun env store src reader size opts).1 with
    | some err =>
      rw [(processUpload_put_err env store producer src reader size opts err hsize hput).1] at hres
      simp at hres
    | none =>
      obtain ⟨hr, htr, -, -⟩ :=
        processUpload_put_ok env store producer src reader size opts hsize hput
      rw [hr] at hres
      rw [htr]
      rcases announce_cases env producer size opts
          (putRun env store src reader size opts).2.2.tee.hashed with
        ⟨-, ⟨e, he⟩, -⟩ | ⟨-, perr, ha, -, hq⟩
      · rw [he] at hres
        simp at hres
      · rw [hq] at hres
        cases perr with
        | some e => simp at hres
        | none =>
          simp only [Except.ok.injEq] at hres
          have hck : res.Checksum = encodeToString (SHA256.sum256
              (putRun env store src reader size opts).2.2.tee.hashed) := by
            rw [← hres]
          refine ⟨?_, ?_, bytesOfString (env.newUUID 1),
            [("media_id", env.newUUID 1), ("event_type", "ingestion.created")],
            eventOf env size opts (putRun env store src reader size opts).2.2.tee.hashed,
            ?_, ?_⟩
          · rw [hck, encodeToString_length, SHA256.sum256_length]
          · intro c hc
            rw [hck] at hc
            have hmem := encodeToString_chars _ c hc
            have hall : ∀ d ∈ hextable, ('0' ≤ d ∧ d ≤ '9') ∨ ('a' ≤ d ∧ d ≤ 'f') := by
              decide
            exact hall c hmem
          · rw [ha]
            simp
          · rw [hck]
            rfl

/-- C9 on the spec's scenario; the checksum is the digest of `abc`. -/
theorem processUpload_checksum_shape_witness :
    ∃ res, (Service.ProcessUpload ⟨demoStore 3, demoProducer⟩ demoEnv bytesSource [97, 98, 99] 3
        demoOpts).result = .ok res ∧
      res.Checksum = "ba7816bf8f01cfea414140de5dae2223b00361a396177a9cb410ff61f20015ad" ∧
      res.Checksum.length = 64 ∧
      (∀ c ∈ res.Checksum.data, ('0' ≤ c ∧ c ≤ '9') ∨ ('a' ≤ c ∧ c ≤ 'f')) ∧
      ∃ (key : List Byte) (headers : GoMap) (ev : IngestionEvent),
        Call.publish key (demoEnv.jsonEncode ev) headers none ∈
          (Service.ProcessUpload ⟨demoStore 3, demoProducer⟩ demoEnv bytesSource [97, 98, 99] 3
            demoOpts).trace ∧
        ev.Checksum = res.Checksum :=
  ⟨_, rfl, by decide,
    processUpload_checksum_shape demoEnv (demoStore 3) demoProducer bytesSource [97, 98, 99] 3
      demoOpts _ rfl⟩

/-! ## C10: the metadata loop of handleUpload -/

/-- C10 (the code at the failing input): a form with the fields `Owner` = a and `owner` = b is
one Go map, whose entries the loop may visit in either order; visiting `Owner` first yields
`owner` = b, visiting `owner` first yields `owner` = a, so the metadata map is not determined
by the submitted form fields. Both names are ASCII, so this holds whatever the case tables of
`unicode.ToLower` are. -/
theorem handleUpload_metadata_depends_on_iteration_order (unicodeToLower : Char → Char) :
    mixedCaseForm.Perm mixedCaseFormSwapped ∧
      (mixedCaseForm.map Prod.fst).Nodup ∧
      handleUploadMetadata unicodeToLower mixedCaseForm = [("owner", "b")] ∧
      handleUploadMetadata unicodeToLower mixedCaseFormSwapped = [("owner", "a")] ∧
      (handleUploadMetadata unicodeToLower mixedCaseForm).get "owner"
        ≠ (handleUploadMetadata unicodeToLower mixedCaseFormSwapped).get "owner" := by
  have h1 : handleUploadMetadata unicodeToLower mixedCaseForm = [("owner", "b")] := rfl
  have h2 : handleUploadMetadata unicodeToLower mixedCaseFormSwapped = [("owner", "a")] := rfl
  refine ⟨List.Perm.swap _ _ _, by decide, h1, h2, ?_⟩
  rw [h1, h2]
  decide

/-! ## C11: the bytes delivered to Put are a prefix of the bytes hashed -/

/-- One `Read` on the buffered reader never leaves more than a buffer's worth of unread
bytes. -/
theorem bufioRead_pending_le {σ : Type} (src : Source σ) (b : BufState σ) (n : Nat)
    (hb : b.pending.length ≤ bufSize) : (bufioRead src b n).2.pending.length ≤ bufSize := by
  have htake : ((src.readInto b.tee.src bufSize).data).length ≤ bufSize := by
    simp only [Source.readInto, List.length_take]
    exact Nat.min_le_left _ _
  unfold bufioRead
  by_cases hn : n = 0
  · by_cases hp : b.pending.length > 0
    · simp only [hn, hp, if_true]
      exact hb
    · simp only [hn, hp, if_true, if_false]
      exact hb
  · by_cases hp : b.pending.length = 0
    · by_cases he : b.err.isSome
      · simp only [hn, hp, he, if_true, if_false]
        exact Nat.zero_le _
      · by_cases hbig : n ≥ bufSize
        · simp [hn, hp, he, hbig, teeRead]
        · by_cases hd : ((src.readInto b.tee.src bufSize).data).length = 0
          · simp [hn, hp, he, hbig, teeRead, hd]
          · have hdrop : ((src.readInto b.tee.src bufSize).data.drop n).length ≤ bufSize := by
              rw [List.length_drop]
              omega
            simpa [hn, hp, he, hbig, teeRead, hd] using hdrop
    · have hdrop : (b.pending.drop n).length ≤ bufSize := by
        rw [List.length_drop]
        omega
      simpa [hn, hp] using hdrop

/-- Running `Put` keeps that bound. -/
theorem runPut_pending_le {σ : Type} (src : Source σ) (p : PutProg) (b : BufState σ)
    (acc : List Byte) (hb : b.pending.length ≤ bufSize) :
    (runPut src p b acc).2.2.pending.length ≤ bufSize := by
  induction p generalizing b acc with
  | ret e => simpa [runPut] using hb
  | read n k ih =>
    simp only [runPut]
    exact ih _ _ _ _ (bufioRead_pending_le src b n hb)

/-- C11: for every source stream and every program of reads the storage writer runs on the
reader it is handed, the bytes delivered to Put are, in order, a prefix of the bytes fed to
the hasher; what the hasher absorbed beyond them is exactly the read-ahead left in the buffer
of the bufio.Reader, at most 64 KiB. -/
theorem processUpload_consumed_prefix_of_hashed {σ : Type} (env : Env) (store : Store)
    (producer : Producer) (src : Source σ) (reader : σ) (size : Int) (opts : UploadOptions)
    (hsize : 0 < size) :
    ∃ consumed,
      putConsumed (Service.ProcessUpload ⟨store, producer⟩ env src reader size opts).trace
        = some consumed ∧
      consumed <+: (Service.ProcessUpload ⟨store, producer⟩ env src reader size opts).hashed ∧
      (Service.ProcessUpload ⟨store, producer⟩ env src reader size opts).hashed
        = consumed
          ++ (Service.ProcessUpload ⟨store, producer⟩ env src reader size opts).pending ∧
      (Service.ProcessUpload ⟨store, producer⟩ env src reader size opts).pending.length
        ≤ 64 * 1024 := by
  have hinv := putRun_hashed env store src reader size opts
  have hle : (putRun env store src reader size opts).2.2.pending.length ≤ bufSize := by
    unfold putRun
    exact runPut_pending_le src _ _ [] (Nat.zero_le _)
  have hfacts :
      putConsumed (Service.ProcessUpload ⟨store, producer⟩ env src reader size opts).trace
        = some (putRun env store src reader size opts).2.1 ∧
      (Service.ProcessUpload ⟨store, producer⟩ env src reader size opts).hashed
        = (putRun env store src reader size opts).2.2.tee.hashed ∧
      (Service.ProcessUpload ⟨store, producer⟩ env src reader size opts).pending
        = (putRun env store src reader size opts).2.2.pending := by
    cases hput : (putRun env store src reader size opts).1 with
    | some err => simp [Service.ProcessUpload, not_le.mpr hsize, hput, putConsumed]
    | none => simp [Service.ProcessUpload, not_le.mpr hsize, hput, putConsumed]
  obtain ⟨hc, hh, hp⟩ := hfacts
  refine ⟨(putRun env store src reader size opts).2.1, hc, ?_, ?_, ?_⟩
  · rw [hh, hinv]
    exact List.prefix_append _ _
  · rw [hh, hp]
    exact hinv
  · rw [hp]
    exact hle

/-- C11 on a five-byte stream of which Put reads three bytes: the hasher has absorbed all
five, and the three delivered are their prefix. -/
theorem processUpload_consumed_prefix_of_hashed_witness :
    (0 : Int) < 3 ∧
    putConsumed (Service.ProcessUpload ⟨demoStore 3, demoProducer⟩ demoEnv bytesSource
      [97, 98, 99, 100, 101] 3 demoOpts).trace = some [97, 98, 99] ∧
    (Service.ProcessUpload ⟨demoStore 3, demoProducer⟩ demoEnv bytesSource
      [97, 98, 99, 100, 101] 3 demoOpts).hashed = [97, 98, 99, 100, 101] ∧
    ∃ consumed,
      putConsumed (Service.ProcessUpload ⟨demoStore 3, demoProducer⟩ demoEnv bytesSource
        [97, 98, 99, 100, 101] 3 demoOpts).trace = some consumed ∧
      consumed <+: (Service.ProcessUpload ⟨demoStore 3, demoProducer⟩ demoEnv bytesSource
        [97, 98, 99, 100, 101] 3 demoOpts).hashed ∧
      (Service.ProcessUpload ⟨demoStore 3, demoProducer⟩ demoEnv bytesSource
          [97, 98, 99, 100, 101] 3 demoOpts).hashed
        = consumed
          ++ (Service.ProcessUpload ⟨demoStore 3, demoProducer⟩ demoEnv bytesSource
            [97, 98, 99, 100, 101] 3 demoOpts).pending ∧
      (Service.ProcessUpload ⟨demoStore 3, demoProducer⟩ demoEnv bytesSource
          [97, 98, 99, 100, 101] 3 demoOpts).pending.length ≤ 64 * 1024 :=
  ⟨by decide, by decide, by decide,
    processUpload_consumed_prefix_of_hashed demoEnv (demoStore 3) demoProducer bytesSource
      [97, 98, 99, 100, 101] 3 demoOpts (by decide)⟩

end MediaFlow
